import Mathlib

/-!
# Verification of the worrdd game server core

Shallow embedding of the room/round orchestration core of the worrdd
multiplayer word game (`server/src/rooms.ts`, `server/src/words.ts`) and
proofs about the properties stated in its specification.

Conventions of the embedding:
* words and codes are `List Char`; player ids and names are `String`;
* JS `number` scores are `Int` (all mutations are integer-valued);
* the in-memory `Map`/`Set` collections are association lists / lists
  (JS `Map`/`Set` preserve insertion order, and `Map` keys are unique);
* `Math.random()`-driven choices are modelled by explicitly passed
  natural-number streams, reduced modulo the relevant range exactly as
  `Math.floor(Math.random() * n)` produces a value in `[0, n)`;
* the asynchronous dictionary oracle of `isValidWordAsync` (local file,
  remote API, lenient fallback, with monotone caching) is modelled as an
  injected predicate `dict : List Char → Bool`, fixed for the duration of
  a round;
* `Date.now()` is an explicitly passed `now : Nat` (milliseconds).
-/

/-! ## Data model (`server/src/types.ts`) -/

inductive GameMode where
  | classic
  | guess
  | scramble
  | teaser
deriving DecidableEq, Repr

inductive GamePhase where
  | lobby
  | round
  | round_results
  | game_over
deriving DecidableEq, Repr

inductive PowerUpType where
  | freeze
  | burn
deriving DecidableEq, Repr

structure PowerUps where
  freeze : Nat
  burn : Nat
deriving DecidableEq, Repr

structure Player where
  id : String
  name : String
  connected : Bool
  isHost : Bool
  score : Int
  isReady : Bool
  powerUps : PowerUps
deriving DecidableEq, Repr

structure GameSettings where
  rounds : Nat
  roundSeconds : Nat
  gameMode : GameMode
  minLen : Option Nat
  fullBonusEnabled : Option Bool
  guessWordLength : Option Nat
  scrambleWordLength : Option Nat
deriving DecidableEq, Repr

structure RoomState where
  roomCode : List Char
  hostPlayerId : Option String
  players : List Player
  settings : GameSettings
  phase : GamePhase
deriving DecidableEq, Repr

structure RoundState where
  roundIndex : Nat
  sourceWord : List Char
  startedAt : Nat
  endsAt : Nat
  usedWordsGlobal : List (List Char)
  submissionsByPlayerId : List (String × List (List Char))
  scoresByPlayerId : List (String × Int)
  roundScoresByPlayerId : List (String × Int)
  gameMode : GameMode
  puzzle : Option (List Char) := none
  hint : Option (List Char) := none
  scrambledWord : Option (List Char) := none
  riddle : Option (List Char) := none
  correctAnswer : Option (List Char) := none
  solvedBy : Option String := none
deriving DecidableEq, Repr

/-! ## Pure word functions (`server/src/words.ts`) -/

/-- `canBuildFromLetters` from `words.ts`: the running per-letter counters of
the source loop succeed exactly when no letter of the (lowercased) word occurs
more often than in the (lowercased) source word. -/
def canBuildFromLetters (word sourceWord : List Char) : Bool :=
  let wordLower := word.map Char.toLower
  let sourceLower := sourceWord.map Char.toLower
  wordLower.all fun c => wordLower.count c ≤ sourceLower.count c

/-- `usesAllLetters` from `words.ts`. -/
def usesAllLetters (word sourceWord : List Char) : Bool :=
  word.length = sourceWord.length && canBuildFromLetters word sourceWord

/-- `calculatePoints` from `words.ts`. -/
def calculatePoints (wordLength : Nat) : Nat :=
  if wordLength = 3 then 1
  else if wordLength = 4 then 2
  else if wordLength = 5 then 4
  else if wordLength = 6 then 7
  else 11

/-- `calculateFullBonus` from `words.ts`. -/
def calculateFullBonus (word sourceWord : List Char) (bonusEnabled : Bool) : Nat :=
  if bonusEnabled && usesAllLetters word sourceWord then 8 else 0

/-- `getRandomSourceWord` from `words.ts`.  The random draw
`Math.floor(Math.random() * availableWords.length)` is modelled by the index
`r` reduced modulo the pool size. -/
def getRandomSourceWord (words : List (List Char))
    (excludeWords : Option (List (List Char))) (r : Nat) : List Char :=
  let availableWords :=
    match excludeWords with
    | some ex => if 0 < ex.length then words.filter (fun w => !ex.contains w) else words
    | none => words
  let availableWords := if availableWords.length = 0 then words else availableWords
  availableWords.getD (r % availableWords.length) []

/-! ### Multiset semantics of the letter checks -/

theorem canBuildFromLetters_iff (word sourceWord : List Char) :
    canBuildFromLetters word sourceWord = true ↔
      (word.map Char.toLower : Multiset Char) ≤ (sourceWord.map Char.toLower : Multiset Char) := by
  simp only [canBuildFromLetters, List.all_eq_true, decide_eq_true_eq,
    Multiset.le_iff_count, Multiset.coe_count]
  constructor
  · intro h a
    by_cases ha : a ∈ word.map Char.toLower
    · exact h a ha
    · simp [List.count_eq_zero_of_not_mem ha]
  · intro h a _
    exact h a

theorem usesAllLetters_iff (word sourceWord : List Char) :
    usesAllLetters word sourceWord = true ↔
      (word.map Char.toLower : Multiset Char) = (sourceWord.map Char.toLower : Multiset Char) := by
  simp only [usesAllLetters, Bool.and_eq_true, decide_eq_true_eq, canBuildFromLetters_iff]
  constructor
  · rintro ⟨hlen, hle⟩
    refine Multiset.eq_of_le_of_card_le hle ?_
    simpa using hlen.ge
  · intro h
    constructor
    · have := congrArg Multiset.card h
      simpa using this
    · exact h.le

/-! ### Scramble puzzle (`generateScramblePuzzle` in `words.ts`)

The drawn dictionary word is an explicit argument (the draw itself is the
injected word-source).  The Fisher-Yates shuffle consumes one random index per
position; the reshuffle loop consumes a fresh stream per pass.  The JS `while`
loop has no bound, so the model takes explicit fuel and returns `none` when
the loop has not exited within `fuel` passes. -/

/-- ASCII model of JS `String.prototype.toUpperCase` on a single character. -/
def upChar (c : Char) : Char :=
  if 'a' ≤ c ∧ c ≤ 'z' then Char.ofNat (c.toNat - 32) else c

/-- Swap the elements at positions `i` and `j` (the JS three-assignment swap
on an array); out-of-range indices leave the list unchanged. -/
def listSwap (l : List Char) (i j : Nat) : List Char :=
  match l[i]?, l[j]? with
  | some a, some b => (l.set i b).set j a
  | _, _ => l

/-- The Fisher-Yates loop body: `for (let i = len-1; i > 0; i--)` swapping
position `i` with `j = floor(random * (i+1))`. -/
def fyAux (js : Nat → Nat) : Nat → List Char → List Char
  | 0, l => l
  | i + 1, l => fyAux js i (listSwap l (i + 1) (js (i + 1) % (i + 2)))

/-- One full Fisher-Yates shuffle pass over the letters. -/
def fisherYates (l : List Char) (js : Nat → Nat) : List Char :=
  fyAux js (l.length - 1) l

/-- The `while (scrambled === word)` reshuffle loop: pass `p` reshuffles the
current letters with the stream `jss p`. -/
def scrambleLoop (word : List Char) (jss : Nat → Nat → Nat) :
    Nat → Nat → List Char → Option (List Char)
  | _, 0, _ => none
  | p, fuel + 1, l =>
      if l = word then scrambleLoop word jss (p + 1) fuel (fisherYates l (jss p))
      else some l

/-- `generateScramblePuzzle` from `words.ts`, for an already-drawn `word`:
shuffle once, reshuffle while the result equals the word, then render the
scrambled letters upper-case. -/
def generateScramblePuzzle (word : List Char) (jss : Nat → Nat → Nat) (fuel : Nat) :
    Option (List Char × List Char) :=
  (scrambleLoop word jss 1 fuel (fisherYates word (jss 0))).map
    fun scrambled => (word, scrambled.map upChar)

/-! ### Room code generation (`generateRoomCode` in `rooms.ts`) -/

/-- The fixed room-code alphabet `'ABCDEFGHJKLMNPQRSTUVWXYZ23456789'`. -/
def roomCodeChars : List Char := "ABCDEFGHJKLMNPQRSTUVWXYZ23456789".toList

/-- One six-character draw, `chars.charAt(Math.floor(Math.random() * chars.length))`
six times; draw number `k` consumes stream positions `6*k .. 6*k+5`. -/
def drawRoomCode (rands : Nat → Nat) (k : Nat) : List Char :=
  (List.range 6).map fun i => roomCodeChars.getD (rands (6 * k + i) % roomCodeChars.length) 'A'

/-- Digit characters of JS `Number.prototype.toString(36)`. -/
def base36Char (d : Nat) : Char := "0123456789abcdefghijklmnopqrstuvwxyz".toList.getD d '0'

/-- Base-36 digit list of `n`, most significant first (`n.toString(36)`);
the first argument is structural fuel, always sufficient at `n + 1`. -/
def toBase36Aux : Nat → Nat → List Char
  | 0, _ => []
  | fuel + 1, n => if n < 36 then [base36Char n] else toBase36Aux fuel (n / 36) ++ [base36Char (n % 36)]

def toBase36 (n : Nat) : List Char := toBase36Aux (n + 1) n

/-- The collision-loop fallback:
`chars.charAt(..) + Date.now().toString(36).slice(-4).toUpperCase() + chars.charAt(..)`. -/
def fallbackCode (r1 r2 : Nat) (now : Nat) : List Char :=
  [roomCodeChars.getD (r1 % roomCodeChars.length) 'A']
    ++ ((toBase36 now).drop ((toBase36 now).length - 4)).map upChar
    ++ [roomCodeChars.getD (r2 % roomCodeChars.length) 'A']

/-- The `do { .. } while (rooms.has(code))` loop of `generateRoomCode`: draw
number `k`; when the 100 collision-checked draws are exhausted the fallback
code is returned without a collision check. -/
def generateRoomCodeAux (live : List (List Char)) (rands : Nat → Nat) (now : Nat) :
    Nat → Nat → List Char
  | 0, k => fallbackCode (rands (6 * k)) (rands (6 * k + 1)) now
  | fuel + 1, k =>
      let code := drawRoomCode rands k
      if code ∈ live then generateRoomCodeAux live rands now fuel (k + 1) else code

/-- `generateRoomCode` from `rooms.ts`; `live` is the set of room codes
currently in the registry. -/
def generateRoomCode (live : List (List Char)) (rands : Nat → Nat) (now : Nat) : List Char :=
  generateRoomCodeAux live rands now 100 0

/-! ## Room and round operations (`server/src/rooms.ts`) -/

/-- `room.players.get(playerId)` (a JS `Map` lookup; map values carry their key). -/
def findPlayer (players : List Player) (playerId : String) : Option Player :=
  players.find? fun p => p.id = playerId

/-- In-place mutation of the player object held by the `Map`: apply `f` to the
entries whose id is `playerId`. -/
def updatePlayer (players : List Player) (playerId : String) (f : Player → Player) : List Player :=
  players.map fun p => if p.id = playerId then f p else p

/-- JS `Map.get` on an association list. -/
def alistGet {α : Type} (l : List (String × α)) (k : String) : Option α :=
  (l.find? fun kv => kv.1 = k).map fun kv => kv.2

/-- JS `Map.set` on an association list: overwrite an existing key, otherwise
append in insertion order. -/
def alistSet {α : Type} (l : List (String × α)) (k : String) (v : α) : List (String × α) :=
  if l.any fun kv => kv.1 = k then l.map fun kv => if kv.1 = k then (k, v) else kv
  else l ++ [(k, v)]

/-- `Math.ceil(s * 0.1)` for an integer score `s ≥ 0`: the ceiling of `s / 10`. -/
def ceilTenth (s : Int) : Int := (s + 9) / 10

structure PowerUpResult where
  success : Bool
  targetPlayerId : Option String := none
  pointsLost : Option Int := none
deriving DecidableEq, Repr

def PowerUps.get (pu : PowerUps) : PowerUpType → Nat
  | .freeze => pu.freeze
  | .burn => pu.burn

def PowerUps.dec (pu : PowerUps) : PowerUpType → PowerUps
  | .freeze => { pu with freeze := pu.freeze - 1 }
  | .burn => { pu with burn := pu.burn - 1 }

/-- `usePowerUp` from `rooms.ts`.  `r` models the random target draw
`Math.floor(Math.random() * otherPlayers.length)`. -/
def usePowerUp (room : RoomState) (playerId : String) (t : PowerUpType) (r : Nat) :
    RoomState × PowerUpResult :=
  match findPlayer room.players playerId with
  | none => (room, { success := false })
  | some player =>
    if player.powerUps.get t = 0 then (room, { success := false })
    else
      let room1 := { room with
        players := updatePlayer room.players playerId fun p => { p with powerUps := p.powerUps.dec t } }
      match t with
      | .burn =>
        let otherPlayers := room1.players.filter fun p =>
          decide (p.id ≠ playerId) && p.connected && decide (0 < p.score)
        if hne : otherPlayers = [] then (room1, { success := false })
        else
          let target := otherPlayers.get
            ⟨r % otherPlayers.length, Nat.mod_lt r (List.length_pos.mpr hne)⟩
          let pointsLost := min target.score (ceilTenth target.score)
          let room2 := { room1 with
            players := updatePlayer room1.players target.id fun p =>
              { p with score := p.score - pointsLost } }
          (room2, { success := true, targetPlayerId := some target.id,
                    pointsLost := some pointsLost })
      | .freeze => (room1, { success := true })

/-! ### Round creation (`createRound` in `rooms.ts`)

The mode generators (`generateGuessPuzzle`, `generateScramblePuzzle`,
`generateTeaser`) draw from the injected word/riddle source; their outputs for
this round are supplied in `RoundGen`.  The classic draw is the real
`getRandomSourceWord`, called — exactly as in the source — with **no**
exclusion argument. -/

structure GuessData where
  word : List Char
  puzzle : List Char
  hint : List Char
deriving DecidableEq, Repr

structure ScrambleData where
  word : List Char
  scrambled : List Char
deriving DecidableEq, Repr

structure TeaserData where
  riddle : List Char
  answer : List Char
  hint : List Char
deriving DecidableEq, Repr

structure RoundGen where
  sourceWords : List (List Char)
  classicDraw : Nat
  guess : GuessData
  scramble : ScrambleData
  teaser : TeaserData
deriving Repr

/-- `createRound` from `rooms.ts`. -/
def createRound (room : RoomState) (roundIndex : Nat) (now : Nat) (gen : RoundGen) : RoundState :=
  let gameMode := room.settings.gameMode
  let roundState : RoundState := {
    roundIndex
    sourceWord := []
    startedAt := now
    endsAt := now + room.settings.roundSeconds * 1000
    usedWordsGlobal := []
    submissionsByPlayerId := room.players.map fun p => (p.id, [])
    scoresByPlayerId := room.players.map fun p => (p.id, 0)
    roundScoresByPlayerId := room.players.map fun p => (p.id, 0)
    gameMode }
  match gameMode with
  | .classic =>
      { roundState with sourceWord := getRandomSourceWord gen.sourceWords none gen.classicDraw }
  | .guess =>
      { roundState with
        sourceWord := gen.guess.word
        puzzle := some gen.guess.puzzle
        hint := some gen.guess.hint
        correctAnswer := some gen.guess.word }
  | .scramble =>
      { roundState with
        sourceWord := gen.scramble.word
        scrambledWord := some gen.scramble.scrambled
        correctAnswer := some gen.scramble.word }
  | .teaser =>
      { roundState with
        sourceWord := gen.teaser.answer
        riddle := some gen.teaser.riddle
        hint := some gen.teaser.hint
        correctAnswer := some gen.teaser.answer }

/-! ### Word submission (`submitWordAsync` in `rooms.ts`) -/

structure SubmitResult where
  ok : Bool
  reason : Option String := none
  pointsAwarded : Option Int := none
  newTotalScore : Option Int := none
  usedWordsCount : Option Nat := none
  powerUpAwarded : Option PowerUpType := none
  solved : Option Bool := none
  correctAnswer : Option (List Char) := none
deriving DecidableEq, Repr

/-- `word.toLowerCase().trim().replace(/[^a-z]/g, '')`: lowercase, then keep
only `a`-`z` (the trim is subsumed by stripping non-letters). -/
def normalizeWord (word : List Char) : List Char :=
  (word.map Char.toLower).filter fun c => decide ('a' ≤ c ∧ c ≤ 'z')

/-- The shared guess/scramble branch of `submitWordAsync` (the two mode blocks
in the source are textually identical). -/
def solveAttempt (room : RoomState) (rs : RoundState) (now : Nat) (playerId : String)
    (normalizedWord : List Char) : RoomState × RoundState × SubmitResult :=
  if rs.solvedBy.isSome then (room, rs, { ok := false, reason := some "already_solved" })
  else if rs.correctAnswer = some normalizedWord then
    let timeBonus : Int := max 1 ((rs.endsAt - now) / 1000 : Nat)
    let points : Int := 10 + timeBonus
    match findPlayer room.players playerId with
    | some player =>
        let newScore := player.score + points
        let room' := { room with
          players := updatePlayer room.players playerId fun p => { p with score := p.score + points } }
        let rs' := { rs with
          scoresByPlayerId := alistSet rs.scoresByPlayerId playerId newScore
          solvedBy := some playerId }
        (room', rs', { ok := true, pointsAwarded := some points, newTotalScore := some newScore,
                       solved := some true, correctAnswer := rs.correctAnswer })
    | none =>
        (room, rs, { ok := true, pointsAwarded := some points, newTotalScore := some 0,
                     solved := some true, correctAnswer := rs.correctAnswer })
  else (room, rs, { ok := false, reason := some "wrong_guess" })

/-- The classic-mode tail of `submitWordAsync` (everything after the guess and
scramble blocks). -/
def classicSubmit (room : RoomState) (rs : RoundState) (dict : List Char → Bool)
    (playerId : String) (normalizedWord : List Char) : RoomState × RoundState × SubmitResult :=
  let minLen := room.settings.minLen.getD 3
  if normalizedWord.length < minLen then
    (room, rs, { ok := false, reason := some "too_short" })
  else if !dict normalizedWord then
    (room, rs, { ok := false, reason := some "not_in_dictionary" })
  else if !canBuildFromLetters normalizedWord rs.sourceWord then
    (room, rs, { ok := false, reason := some "invalid_letters" })
  else if normalizedWord ∈ rs.usedWordsGlobal then
    (room, rs, { ok := false, reason := some "already_used" })
  else
    let usedWordsGlobal := rs.usedWordsGlobal ++ [normalizedWord]
    let submissions := (alistGet rs.submissionsByPlayerId playerId).getD [] ++ [normalizedWord]
    let submissionsByPlayerId := alistSet rs.submissionsByPlayerId playerId submissions
    let basePoints := calculatePoints normalizedWord.length
    let bonusPoints := calculateFullBonus normalizedWord rs.sourceWord
      (room.settings.fullBonusEnabled.getD true)
    let totalPoints : Int := (basePoints + bonusPoints : Nat)
    let currentRoundScore := (alistGet rs.roundScoresByPlayerId playerId).getD 0
    let roundScoresByPlayerId :=
      alistSet rs.roundScoresByPlayerId playerId (currentRoundScore + totalPoints)
    match findPlayer room.players playerId with
    | some player =>
        let newScore := player.score + totalPoints
        let freezeAward := submissions.length = 5
        let burnAward := 10 ≤ totalPoints
        let players' := updatePlayer room.players playerId fun p =>
          let p := { p with score := p.score + totalPoints }
          let p := if freezeAward then
              { p with powerUps := { p.powerUps with freeze := p.powerUps.freeze + 1 } } else p
          if burnAward then
              { p with powerUps := { p.powerUps with burn := p.powerUps.burn + 1 } } else p
        let rs' := { rs with
          usedWordsGlobal, submissionsByPlayerId, roundScoresByPlayerId
          scoresByPlayerId := alistSet rs.scoresByPlayerId playerId newScore }
        (⟨room.roomCode, room.hostPlayerId, players', room.settings, room.phase⟩, rs',
          { ok := true, pointsAwarded := some totalPoints, newTotalScore := some newScore,
            usedWordsCount := some usedWordsGlobal.length,
            powerUpAwarded := if burnAward then some .burn
              else if freezeAward then some .freeze else none })
    | none =>
        let rs' := { rs with usedWordsGlobal, submissionsByPlayerId, roundScoresByPlayerId }
        (room, rs',
          { ok := true, pointsAwarded := some totalPoints, newTotalScore := some 0,
            usedWordsCount := some usedWordsGlobal.length, powerUpAwarded := none })

/-- `submitWordAsync` from `rooms.ts`.  Note that the mode dispatch handles
`guess` and `scramble` explicitly and lets **everything else** — `classic` and
`teaser` alike — fall through to the classic word-building branch. -/
def submitWordAsync (room : RoomState) (rs : RoundState) (dict : List Char → Bool)
    (now : Nat) (playerId : String) (word : List Char) :
    RoomState × RoundState × SubmitResult :=
  if room.phase ≠ GamePhase.round then
    (room, rs, { ok := false, reason := some "round_ended" })
  else if rs.endsAt ≤ now then
    (room, rs, { ok := false, reason := some "round_ended" })
  else
    let normalizedWord := normalizeWord word
    match rs.gameMode with
    | .guess => solveAttempt room rs now playerId normalizedWord
    | .scramble => solveAttempt room rs now playerId normalizedWord
    | _ => classicSubmit room rs dict playerId normalizedWord

/-! ### Game end aggregation (`getGameEndState` in `rooms.ts`) -/

structure LeaderboardEntry where
  playerId : String
  playerName : String
  totalPoints : Int
deriving DecidableEq, Repr

structure GameEndState where
  finalLeaderboard : List LeaderboardEntry
  winner : Option LeaderboardEntry
  isDraw : Bool
deriving DecidableEq, Repr

/-- The comparator `(a, b) => b.totalPoints - a.totalPoints`: `a` may precede
`b` exactly when `b.totalPoints ≤ a.totalPoints` (descending order). -/
def scoreDescOrder (a b : LeaderboardEntry) : Prop := b.totalPoints ≤ a.totalPoints

instance : DecidableRel scoreDescOrder := fun _ _ => inferInstanceAs (Decidable (_ ≤ _))

instance : IsTotal LeaderboardEntry scoreDescOrder :=
  ⟨fun a b => (le_total b.totalPoints a.totalPoints).imp id id⟩

instance : IsTrans LeaderboardEntry scoreDescOrder :=
  ⟨fun _ _ _ hab hbc => le_trans hbc hab⟩

def Player.toEntry (p : Player) : LeaderboardEntry :=
  { playerId := p.id, playerName := p.name, totalPoints := p.score }

/-- `getGameEndState` from `rooms.ts`: sort descending by score, then a unique
top scorer is the winner and two or more tied top scorers are a draw. -/
def getGameEndState (room : RoomState) : GameEndState :=
  let leaderboard := List.insertionSort scoreDescOrder (room.players.map Player.toEntry)
  match leaderboard with
  | [] => { finalLeaderboard := [], winner := none, isDraw := false }
  | top :: rest =>
    let topScore := top.totalPoints
    let tiedPlayers := (top :: rest).filter fun e => decide (e.totalPoints = topScore)
    let winner := if tiedPlayers.length = 1 then some top else none
    { finalLeaderboard := top :: rest
      winner
      isDraw := decide (1 < (top :: rest).length) && decide (1 < tiedPlayers.length) }

/-! ## Concrete fixtures used by witnesses and counterexamples -/

def exPowerNone : PowerUps := { freeze := 0, burn := 0 }

def exAnn : Player :=
  { id := "p1", name := "Ann", connected := true, isHost := true, score := 0,
    isReady := true, powerUps := exPowerNone }

def exBob : Player :=
  { id := "p2", name := "Bob", connected := true, isHost := false, score := 0,
    isReady := true, powerUps := exPowerNone }

def exSettings (m : GameMode) : GameSettings :=
  { rounds := 7, roundSeconds := 60, gameMode := m, minLen := some 3,
    fullBonusEnabled := some true, guessWordLength := none, scrambleWordLength := none }

def exRoomTeaser : RoomState :=
  { roomCode := "ABCDEF".toList, hostPlayerId := some "p1", players := [exAnn, exBob],
    settings := exSettings .teaser, phase := .round }

def exRoomClassic : RoomState :=
  { exRoomTeaser with settings := exSettings .classic }

def exGen : RoundGen :=
  { sourceWords := ["letters".toList, "wording".toList], classicDraw := 0,
    guess := { word := [], puzzle := [], hint := [] },
    scramble := { word := [], scrambled := [] },
    teaser := { riddle := "What has keys but no locks?".toList,
                answer := "keyboard".toList, hint := "K (8 letters)".toList } }

def exRoundTeaser : RoundState := createRound exRoomTeaser 0 0 exGen

def exDictTeaser : List Char → Bool := fun w => w = "keyboard".toList

/-! ## C4: the scoring table and the full-use bonus -/

/-- **C4.** `calculatePoints` maps lengths 3, 4, 5, 6 to 1, 2, 4, 7 points and
every length at least 7 to 11; `calculateFullBonus` is 8 exactly when the
bonus is enabled and the word uses every letter of the source word exactly
once each (equal lowercased letter multisets, i.e. equal length and buildable
from the source's letters), and is 0 in every other case. -/
theorem calculatePoints_calculateFullBonus_spec :
    calculatePoints 3 = 1 ∧ calculatePoints 4 = 2 ∧ calculatePoints 5 = 4 ∧
    calculatePoints 6 = 7 ∧ (∀ L, 7 ≤ L → calculatePoints L = 11) ∧
    (∀ (word sourceWord : List Char) (enabled : Bool),
      (calculateFullBonus word sourceWord enabled = 8 ↔
        enabled = true ∧ usesAllLetters word sourceWord = true) ∧
      (calculateFullBonus word sourceWord enabled = 8 ∨
        calculateFullBonus word sourceWord enabled = 0) ∧
      (usesAllLetters word sourceWord = true ↔
        (word.map Char.toLower : Multiset Char) =
          (sourceWord.map Char.toLower : Multiset Char))) := by
  refine ⟨by decide, by decide, by decide, by decide, ?_, ?_⟩
  · intro L hL
    simp only [calculatePoints]
    rw [if_neg (by omega), if_neg (by omega), if_neg (by omega), if_neg (by omega)]
  · intro word sourceWord enabled
    refine ⟨?_, ?_, usesAllLetters_iff word sourceWord⟩
    · cases enabled <;> cases hu : usesAllLetters word sourceWord <;>
        simp [calculateFullBonus, hu]
    · cases enabled <;> cases hu : usesAllLetters word sourceWord <;>
        simp [calculateFullBonus, hu]

theorem calculatePoints_calculateFullBonus_spec_witness : calculatePoints 9 = 11 :=
  calculatePoints_calculateFullBonus_spec.2.2.2.2.1 9 (by decide)

/-! ## C7: late or out-of-phase submissions -/

theorem submitWordAsync_rejects_round_ended (room : RoomState) (rs : RoundState)
    (dict : List Char → Bool) (now : Nat) (playerId : String) (word : List Char)
    (h : rs.endsAt ≤ now ∨ room.phase ≠ GamePhase.round) :
    submitWordAsync room rs dict now playerId word =
      (room, rs, { ok := false, reason := some "round_ended" }) := by
  unfold submitWordAsync
  rcases h with h | h
  · by_cases hp : room.phase = GamePhase.round
    · simp [hp, h]
    · simp [hp]
  · simp [h]

/-- **C7.** In every game mode, a submission that arrives after the round's
`endsAt` timestamp, or while the room phase is not `round`, is rejected with
reason `round_ended` whatever the word is, and neither the room nor the round
state changes. -/
theorem submitWordAsync_round_ended (room : RoomState) (rs : RoundState)
    (dict : List Char → Bool) (now : Nat) (playerId : String) (word : List Char)
    (h : rs.endsAt < now ∨ room.phase ≠ GamePhase.round) :
    submitWordAsync room rs dict now playerId word =
      (room, rs, { ok := false, reason := some "round_ended" }) :=
  submitWordAsync_rejects_round_ended room rs dict now playerId word
    (h.imp Nat.le_of_lt id)

theorem submitWordAsync_round_ended_witness :
    submitWordAsync { exRoomTeaser with phase := .lobby } exRoundTeaser exDictTeaser 0
      "p1" "keyboard".toList =
      ({ exRoomTeaser with phase := .lobby }, exRoundTeaser,
        { ok := false, reason := some "round_ended" }) :=
  submitWordAsync_round_ended _ _ _ _ _ _ (Or.inr (by decide))

/-! ## C1: teaser mode has no exact-match branch -/

/-- **C1 (code bug).** `createRound` prepares the teaser round for the
exact-match contract (`correctAnswer` is the riddle answer), but
`submitWordAsync` dispatches only `guess` and `scramble` to the solve branch:
a teaser submission falls through to the classic word-building branch.
Submitting the exact riddle answer "keyboard" at 5s into the round is
accepted with `11 + 8 = 19` points (the classic length score plus full
bonus) instead of the claimed `10 + max(1, 55) = 65`, `solvedBy` is never
set, a burn power-up is even awarded for the 19-point "word", and a second
submission of the answer is rejected `already_used`, not `already_solved`. -/
theorem submitWordAsync_teaser_takes_classic_path :
    exRoundTeaser.gameMode = .teaser ∧
    exRoundTeaser.correctAnswer = some "keyboard".toList ∧
    (let out := submitWordAsync exRoomTeaser exRoundTeaser exDictTeaser 5000 "p2"
        "keyboard".toList
     out.2.2.ok = true ∧
     out.2.2.pointsAwarded = some 19 ∧
     out.2.2.solved = none ∧
     out.2.1.solvedBy = none ∧
     out.2.2.powerUpAwarded = some .burn ∧
     (submitWordAsync out.1 out.2.1 exDictTeaser 6000 "p1" "keyboard".toList).2.2 =
       { ok := false, reason := some "already_used" }) := by
  decide

/-! ## C2: the classic draw never receives the exclusion set -/

/-- **C2 (code bug).** The classic branch of `createRound` calls
`getRandomSourceWord()` with no exclusion argument (and the room's
`usedSourceWords` set declared in `types.ts` is never initialized or
updated), so the draw is over the whole pool and a source word can repeat
immediately: with pool `[letters, wording]` and the random draw hitting
index 0 both times, round 0 and round 1 both get "letters", although the
exclusion logic inside `getRandomSourceWord` — had it been passed
`{letters}` — would have produced "wording". -/
theorem createRound_classic_ignores_used_source_words :
    (createRound exRoomClassic 0 0 exGen).sourceWord = "letters".toList ∧
    (createRound exRoomClassic 1 60000 exGen).sourceWord = "letters".toList ∧
    getRandomSourceWord exGen.sourceWords (some ["letters".toList]) 0 = "wording".toList := by
  decide

/-! ## C3: room code generation -/

theorem roomCodeChars_getD_mem (m : Nat) :
    roomCodeChars.getD (m % roomCodeChars.length) 'A' ∈ roomCodeChars := by
  have hlen : roomCodeChars.length = 32 := by decide
  have hm : m % roomCodeChars.length < roomCodeChars.length := by
    rw [hlen]; exact Nat.mod_lt _ (by omega)
  rw [List.getD_eq_getElem?_getD, List.getElem?_eq_getElem hm]
  exact List.getElem_mem hm

theorem generateRoomCodeAux_spec (live : List (List Char)) (rands : Nat → Nat) (now : Nat) :
    ∀ fuel k,
      generateRoomCodeAux live rands now fuel k =
          fallbackCode (rands (6 * (k + fuel))) (rands (6 * (k + fuel) + 1)) now ∨
        ((generateRoomCodeAux live rands now fuel k).length = 6 ∧
         (∀ c ∈ generateRoomCodeAux live rands now fuel k, c ∈ roomCodeChars) ∧
         generateRoomCodeAux live rands now fuel k ∉ live)
  | 0, k => Or.inl (by simp [generateRoomCodeAux])
  | fuel + 1, k => by
      unfold generateRoomCodeAux
      by_cases h : drawRoomCode rands k ∈ live
      · simp only [h, if_true]
        have hk : k + 1 + fuel = k + (fuel + 1) := by omega
        simpa [hk] using generateRoomCodeAux_spec live rands now fuel (k + 1)
      · rw [if_neg h]
        refine Or.inr ⟨by simp [drawRoomCode], ?_, h⟩
        intro c hc
        simp only [drawRoomCode, List.mem_map, List.mem_range] at hc
        obtain ⟨i, _, rfl⟩ := hc
        exact roomCodeChars_getD_mem _

/-- **C3 (amended).** Every room code produced by the collision-checked draw
loop is exactly 6 characters, each from the fixed alphabet
`ABCDEFGHJKLMNPQRSTUVWXYZ23456789`, and differs from every live room code;
the only other possibility is the timestamp fallback taken after the 100
collision-checked draws are exhausted, which is 1 alphabet character, the
last 4 base-36 digits of the timestamp upper-cased, and 1 alphabet
character — 6 characters whenever the timestamp has at least 4 base-36
digits, but its middle characters need not lie in the alphabet and it is
not checked against the live codes. -/
theorem generateRoomCode_spec (live : List (List Char)) (rands : Nat → Nat) (now : Nat) :
    (generateRoomCode live rands now = fallbackCode (rands 600) (rands 601) now ∨
      ((generateRoomCode live rands now).length = 6 ∧
       (∀ c ∈ generateRoomCode live rands now, c ∈ roomCodeChars) ∧
       generateRoomCode live rands now ∉ live)) ∧
    (∀ r1 r2, 4 ≤ (toBase36 now).length → (fallbackCode r1 r2 now).length = 6) := by
  constructor
  · simpa using generateRoomCodeAux_spec live rands now 100 0
  · intro r1 r2 h
    simp only [fallbackCode, List.length_append, List.length_map, List.length_drop,
      List.length_cons, List.length_nil]
    omega

theorem generateRoomCode_spec_witness :
    4 ≤ (toBase36 1679616).length ∧ (fallbackCode 0 0 1679616).length = 6 :=
  ⟨by decide, (generateRoomCode_spec [] (fun _ => 0) 1679616).2 0 0 (by decide)⟩

/-- **C3 (counterexample).** With every random draw hitting index 0 and the
two drawn codes live, the fallback is returned: at timestamp `36^4` it is
"A0000A", which contains '0' — a character outside the fixed alphabet — and
which equals a room code currently live in the registry. -/
theorem generateRoomCode_claim_cex :
    generateRoomCode ["AAAAAA".toList, "A0000A".toList] (fun _ => 0) 1679616 =
        "A0000A".toList ∧
    "A0000A".toList ∈ ["AAAAAA".toList, "A0000A".toList] ∧
    '0' ∈ "A0000A".toList ∧ '0' ∉ roomCodeChars := by
  decide

/-! ## C9: the scramble shuffle -/

theorem count_set_add (l : List Char) (n : Nat) (a c : Char) :
    (l.set n a).count c + (if l[n]? = some c then 1 else 0) =
      l.count c + (if n < l.length ∧ a = c then 1 else 0) := by
  induction l generalizing n with
  | nil => simp
  | cons x xs ih =>
      cases n with
      | zero =>
          simp only [List.set_cons_zero, List.count_cons, List.getElem?_cons_zero,
            List.length_cons, Option.some.injEq]
          have hpos : (0 < xs.length + 1 ∧ a = c) ↔ a = c := by
            constructor
            · exact fun h => h.2
            · exact fun h => ⟨Nat.succ_pos _, h⟩
          rw [if_congr hpos rfl rfl]
          by_cases hx : x = c <;> by_cases ha : a = c <;> simp [hx, ha]
      | succ m =>
          simp only [List.set_cons_succ, List.count_cons, List.getElem?_cons_succ,
            List.length_cons]
          have hiff : (m + 1 < xs.length + 1 ∧ a = c) ↔ (m < xs.length ∧ a = c) := by
            constructor
            · exact fun h => ⟨by omega, h.2⟩
            · exact fun h => ⟨by omega, h.2⟩
          rw [if_congr hiff rfl rfl]
          have := ih m
          omega

theorem listSwap_perm (l : List Char) (i j : Nat) : (listSwap l i j).Perm l := by
  unfold listSwap
  cases hi : l[i]? with
  | none => exact List.Perm.refl l
  | some a =>
    cases hj : l[j]? with
    | none => exact List.Perm.refl l
    | some b =>
      rw [List.perm_iff_count]
      intro c
      have hilt : i < l.length := by
        rcases List.getElem?_eq_some_iff.mp hi with ⟨h, _⟩; exact h
      have hjlt : j < l.length := by
        rcases List.getElem?_eq_some_iff.mp hj with ⟨h, _⟩; exact h
      have hjlt' : j < (l.set i b).length := by simpa using hjlt
      have hb : (l.set i b)[j]? = some b := by
        by_cases hij : i = j
        · subst hij; simp [List.getElem?_set_self hilt]
        · rw [List.getElem?_set_ne hij]; exact hj
      have h1 := count_set_add (l.set i b) j a c
      have h2 := count_set_add l i b c
      rw [hb] at h1
      rw [hi] at h2
      simp only [List.length_set, Option.some.injEq] at h1 h2
      by_cases hac : a = c <;> by_cases hbc : b = c <;>
        simp [hac, hbc, hilt, hjlt] at h1 h2 ⊢ <;> omega

theorem fyAux_perm (js : Nat → Nat) : ∀ (i : Nat) (l : List Char), (fyAux js i l).Perm l
  | 0, l => List.Perm.refl l
  | i + 1, l =>
      (fyAux_perm js i (listSwap l (i + 1) (js (i + 1) % (i + 2)))).trans
        (listSwap_perm l (i + 1) (js (i + 1) % (i + 2)))

theorem fisherYates_perm (l : List Char) (js : Nat → Nat) : (fisherYates l js).Perm l :=
  fyAux_perm js (l.length - 1) l

theorem scrambleLoop_some (word : List Char) (jss : Nat → Nat → Nat) :
    ∀ (fuel p : Nat) (l s : List Char), l.Perm word →
      scrambleLoop word jss p fuel l = some s → s.Perm word ∧ s ≠ word
  | 0, _, _, _, _, h => by simp [scrambleLoop] at h
  | fuel + 1, p, l, s, hperm, h => by
      unfold scrambleLoop at h
      by_cases hl : l = word
      · rw [if_pos hl] at h
        exact scrambleLoop_some word jss fuel (p + 1) _ s
          ((fisherYates_perm l (jss p)).trans hperm) h
      · rw [if_neg hl] at h
        cases h
        exact ⟨hperm, hl⟩

/-- The 26 lower-case letters. -/
def lowercaseChars : List Char := "abcdefghijklmnopqrstuvwxyz".toList

theorem upChar_injOn :
    ∀ a ∈ lowercaseChars, ∀ b ∈ lowercaseChars, upChar a = upChar b → a = b := by decide

theorem map_upChar_inj :
    ∀ (s t : List Char), (∀ c ∈ s, c ∈ lowercaseChars) → (∀ c ∈ t, c ∈ lowercaseChars) →
      s.map upChar = t.map upChar → s = t
  | [], [], _, _, _ => rfl
  | [], _ :: _, _, _, h => by simp at h
  | _ :: _, [], _, _, h => by simp at h
  | a :: s, b :: t, hs, ht, h => by
      simp only [List.map_cons, List.cons.injEq] at h
      have hab : a = b :=
        upChar_injOn a (hs a (by simp)) b (ht b (by simp)) h.1
      have := map_upChar_inj s t (fun c hc => hs c (by simp [hc]))
        (fun c hc => ht c (by simp [hc])) h.2
      rw [hab, this]

theorem fisherYates_two_same (js : Nat → Nat) : fisherYates ['a', 'a'] js = ['a', 'a'] := by
  have h2 : js 1 % 2 = 0 ∨ js 1 % 2 = 1 := by omega
  rcases h2 with h | h <;> simp [fisherYates, fyAux, h, listSwap]

theorem scrambleLoop_two_same (jss : Nat → Nat → Nat) :
    ∀ (fuel p : Nat), scrambleLoop ['a', 'a'] jss p fuel ['a', 'a'] = none
  | 0, _ => rfl
  | fuel + 1, p => by
      unfold scrambleLoop
      rw [if_pos rfl, fisherYates_two_same]
      exact scrambleLoop_two_same jss fuel (p + 1)

/-- **C9 (amended).** Whenever `generateScramblePuzzle` returns (i.e. the
`while (scrambled === word)` reshuffle loop exits within the supplied random
draws), the scrambled string is the upper-case rendering of a permutation of
the word's letters that differs from the word, so for a lower-case word the
scrambled string differs from the word rendered upper-case.  Termination is
not guaranteed: for a word whose letters are all identical, such as "aa",
every shuffle reproduces the word and the loop never exits. -/
theorem generateScramblePuzzle_spec :
    (∀ (word : List Char) (jss : Nat → Nat → Nat) (fuel : Nat) (w s : List Char),
      generateScramblePuzzle word jss fuel = some (w, s) →
      w = word ∧ ∃ t, s = t.map upChar ∧ t.Perm word ∧ t ≠ word ∧
        ((∀ c ∈ word, c ∈ lowercaseChars) → s ≠ word.map upChar)) ∧
    (∀ (jss : Nat → Nat → Nat) (fuel : Nat),
      generateScramblePuzzle ['a', 'a'] jss fuel = none) := by
  constructor
  · intro word jss fuel w s h
    simp only [generateScramblePuzzle, Option.map_eq_some'] at h
    obtain ⟨t, ht, hw⟩ := h
    obtain ⟨hw1, hw2⟩ := Prod.mk.injEq .. ▸ hw
    obtain ⟨hperm, hne⟩ :=
      scrambleLoop_some word jss fuel 1 _ t (fisherYates_perm word (jss 0)) ht
    subst hw1
    refine ⟨rfl, t, hw2.symm, hperm, hne, ?_⟩
    intro hlower heq
    have htlower : ∀ c ∈ t, c ∈ lowercaseChars := fun c hc =>
      hlower c (hperm.subset hc)
    exact hne (map_upChar_inj t word htlower hlower (hw2.symm ▸ heq))
  · intro jss fuel
    simp only [generateScramblePuzzle, fisherYates_two_same, scrambleLoop_two_same,
      Option.map_none']

/-- **C9 (counterexample).** For the word "aa" every possible Fisher-Yates
pass returns "aa" (the only swap choices at index 1 are positions 0 and 1,
both no-ops on equal letters), so the reshuffle loop never produces a string
differing from the word: with 120 passes of fuel the model still returns
nothing, where the claim promises termination with a differing permutation
for every input word. -/
theorem generateScramblePuzzle_claim_cex :
    fisherYates ['a', 'a'] (fun _ => 0) = ['a', 'a'] ∧
    fisherYates ['a', 'a'] (fun _ => 1) = ['a', 'a'] ∧
    generateScramblePuzzle ['a', 'a'] (fun _ _ => 0) 120 = none := by
  decide

theorem generateScramblePuzzle_spec_witness :
    "ab".toList = "ab".toList ∧
    ∃ t, "BA".toList = t.map upChar ∧ t.Perm "ab".toList ∧ t ≠ "ab".toList ∧
      ((∀ c ∈ "ab".toList, c ∈ lowercaseChars) → "BA".toList ≠ ("ab".toList).map upChar) :=
  generateScramblePuzzle_spec.1 "ab".toList (fun _ _ => 0) 1 "ab".toList "BA".toList
    (by decide)

/-! ## C5 and C10: the burn power-up -/

theorem mem_updatePlayer {players : List Player} {playerId : String} {f : Player → Player}
    {q : Player} :
    q ∈ updatePlayer players playerId f ↔
      ∃ p ∈ players, q = if p.id = playerId then f p else p := by
  simp only [updatePlayer, List.mem_map]
  constructor
  · rintro ⟨p, hp, rfl⟩; exact ⟨p, hp, rfl⟩
  · rintro ⟨p, hp, rfl⟩; exact ⟨p, hp, rfl⟩

theorem updatePlayer_map_id (players : List Player) (playerId : String) (f : Player → Player)
    (hf : ∀ p, (f p).id = p.id) :
    (updatePlayer players playerId f).map Player.id = players.map Player.id := by
  simp only [updatePlayer, List.map_map]
  refine List.map_congr_left fun p _ => ?_
  by_cases h : p.id = playerId <;> simp [h, hf]

/-- **C5.** A successful `burn` debits its target exactly
`min(targetScore, ceil(targetScore * 0.1))` points: in the resulting room the
target's score is its old score minus exactly that amount, every other
player's score is unchanged, and the reported `pointsLost` equals it; the
target is some member of the room other than the caller that is connected
with a positive score; and (for a room whose `Map`-keyed player ids are
distinct and whose scores are non-negative, as maintained by the game) no
player's score in the resulting room is negative. -/
theorem usePowerUp_burn_spec (room : RoomState) (playerId : String) (r : Nat)
    (room' : RoomState) (res : PowerUpResult)
    (hnd : (room.players.map Player.id).Nodup)
    (hpos : ∀ p ∈ room.players, 0 ≤ p.score)
    (h : usePowerUp room playerId .burn r = (room', res))
    (hs : res.success = true) :
    (∃ target ∈ room.players,
        res.targetPlayerId = some target.id ∧ target.id ≠ playerId ∧
        target.connected = true ∧ 0 < target.score ∧
        res.pointsLost = some (min target.score (ceilTenth target.score)) ∧
        (∀ q ∈ room'.players, q.id = target.id →
          q.score = target.score - min target.score (ceilTenth target.score)) ∧
        (∀ q ∈ room'.players, q.id ≠ target.id →
          ∃ p ∈ room.players, p.id = q.id ∧ q.score = p.score)) ∧
    ∀ q ∈ room'.players, 0 ≤ q.score := by
  cases hf : findPlayer room.players playerId with
  | none => simp only [usePowerUp, hf] at h; cases h; cases hs
  | some player =>
    simp only [usePowerUp, hf] at h
    by_cases hc : player.powerUps.get .burn = 0
    · rw [if_pos hc] at h; cases h; cases hs
    · rw [if_neg hc] at h
      set room1players := updatePlayer room.players playerId
        (fun p => { p with powerUps := p.powerUps.dec .burn }) with hroom1
      set otherPlayers := room1players.filter
        (fun p => decide (p.id ≠ playerId) && p.connected && decide (0 < p.score))
        with hothers
      by_cases hne : otherPlayers = []
      · rw [dif_pos hne] at h; cases h; cases hs
      · rw [dif_neg hne] at h
        set idx : Fin otherPlayers.length :=
          ⟨r % otherPlayers.length, Nat.mod_lt r (List.length_pos.mpr hne)⟩ with hidx
        set target := otherPlayers.get idx with htarget
        cases h
        have htmem : target ∈ otherPlayers := List.get_mem otherPlayers idx.1 idx.2
        have htfilter := htmem
        rw [hothers, List.mem_filter] at htfilter
        obtain ⟨htmem1, hpred⟩ := htfilter
        simp only [Bool.and_eq_true, decide_eq_true_eq] at hpred
        obtain ⟨⟨htid, htconn⟩, htscore⟩ := hpred
        have htmem0 : target ∈ room.players := by
          rcases mem_updatePlayer.mp htmem1 with ⟨p0, hp0, heq⟩
          by_cases hcase : p0.id = playerId
          · rw [if_pos hcase] at heq
            exact absurd (heq ▸ hcase : target.id = playerId) htid
          · rw [if_neg hcase] at heq
            exact heq ▸ hp0
        have hmapid := updatePlayer_map_id room.players playerId
          (fun p => { p with powerUps := p.powerUps.dec .burn }) (fun p => rfl)
        have hnd1 : (room1players.map Player.id).Nodup := by
          rw [hroom1, hmapid]; exact hnd
        refine ⟨⟨target, htmem0, rfl, htid, htconn, htscore, rfl, ?_, ?_⟩, ?_⟩
        · intro q hq hqid
          rcases mem_updatePlayer.mp hq with ⟨q1, hq1, heq1⟩
          by_cases hcase : q1.id = target.id
          · have hq1eq : q1 = target :=
              List.inj_on_of_nodup_map hnd1 hq1 htmem1 hcase
            rw [if_pos hcase, hq1eq] at heq1
            simp [heq1]
          · rw [if_neg hcase] at heq1
            rw [heq1] at hqid
            exact absurd hqid hcase
        · intro q hq hqne
          rcases mem_updatePlayer.mp hq with ⟨q1, hq1, heq1⟩
          by_cases hcase : q1.id = target.id
          · rw [if_pos hcase] at heq1
            have hid : q.id = q1.id := by rw [heq1]
            exact absurd (hid.trans hcase) hqne
          · rw [if_neg hcase] at heq1
            rcases mem_updatePlayer.mp hq1 with ⟨q0, hq0, heq0⟩
            by_cases hcase0 : q0.id = playerId
            · rw [if_pos hcase0] at heq0
              exact ⟨q0, hq0, by simp [heq1, heq0], by simp [heq1, heq0]⟩
            · rw [if_neg hcase0] at heq0
              exact ⟨q0, hq0, by simp [heq1, heq0], by simp [heq1, heq0]⟩
        · intro q hq
          rcases mem_updatePlayer.mp hq with ⟨q1, hq1, heq1⟩
          have hq1score : 0 ≤ q1.score := by
            rcases mem_updatePlayer.mp hq1 with ⟨q0, hq0, heq0⟩
            have : q1.score = q0.score := by
              by_cases hcase : q0.id = playerId <;> simp [hcase] at heq0 <;>
                rw [heq0]
            rw [this]; exact hpos q0 hq0
          by_cases hcase : q1.id = target.id
          · rw [if_pos hcase] at heq1
            have hq1eq : q1 = target :=
              List.inj_on_of_nodup_map hnd1 hq1 htmem1 hcase
            rw [heq1, hq1eq]
            simp only
            have hmin : min target.score (ceilTenth target.score) ≤ target.score :=
              min_le_left _ _
            omega
          · rw [if_neg hcase] at heq1
            rw [heq1]; exact hq1score

def exRoomBurn : RoomState :=
  { exRoomClassic with players :=
      [{ exAnn with powerUps := { freeze := 0, burn := 1 } }, { exBob with score := 10 }] }

theorem usePowerUp_burn_spec_witness :
    (∃ target ∈ exRoomBurn.players,
        (usePowerUp exRoomBurn "p1" .burn 0).2.targetPlayerId = some target.id ∧
        target.id ≠ "p1" ∧ target.connected = true ∧ 0 < target.score ∧
        (usePowerUp exRoomBurn "p1" .burn 0).2.pointsLost =
          some (min target.score (ceilTenth target.score)) ∧
        (∀ q ∈ (usePowerUp exRoomBurn "p1" .burn 0).1.players, q.id = target.id →
          q.score = target.score - min target.score (ceilTenth target.score)) ∧
        (∀ q ∈ (usePowerUp exRoomBurn "p1" .burn 0).1.players, q.id ≠ target.id →
          ∃ p ∈ exRoomBurn.players, p.id = q.id ∧ q.score = p.score)) ∧
    ∀ q ∈ (usePowerUp exRoomBurn "p1" .burn 0).1.players, 0 ≤ q.score :=
  usePowerUp_burn_spec exRoomBurn "p1" 0
    (usePowerUp exRoomBurn "p1" .burn 0).1 (usePowerUp exRoomBurn "p1" .burn 0).2
    (by decide) (by decide) rfl (by decide)

/-- The caller update of a consumed burn power-up: the burn counter drops by 1
and nothing else changes. -/
def burnDecPlayer (p : Player) : Player :=
  { p with powerUps := { p.powerUps with burn := p.powerUps.burn - 1 } }

/-- **C10.** When the caller holds a burn power-up but no other connected
player with positive score exists, `usePowerUp` reports `success := false`
and nevertheless consumes the power-up: the caller's burn counter is
decremented by 1 and that decrement is the only state change. -/
theorem usePowerUp_burn_no_target (room : RoomState) (playerId : String) (r : Nat)
    (player : Player)
    (hf : findPlayer room.players playerId = some player)
    (hb : player.powerUps.burn ≠ 0)
    (hno : ∀ p ∈ room.players, p.id ≠ playerId → p.connected = true → p.score ≤ 0) :
    usePowerUp room playerId .burn r =
      ({ room with players := updatePlayer room.players playerId burnDecPlayer },
       { success := false }) := by
  simp only [usePowerUp, hf]
  rw [if_neg (show ¬player.powerUps.get .burn = 0 from hb)]
  have hfilter : (updatePlayer room.players playerId
      (fun p => { p with powerUps := p.powerUps.dec .burn })).filter
      (fun p => decide (p.id ≠ playerId) && p.connected && decide (0 < p.score)) = [] := by
    rw [List.filter_eq_nil_iff]
    intro p hp
    rcases mem_updatePlayer.mp hp with ⟨p0, hp0, rfl⟩
    by_cases hcase : p0.id = playerId
    · simp [hcase]
    · rw [if_neg hcase]
      by_cases hconn : p0.connected = true
      · have hscore := hno p0 hp0 hcase hconn
        simp only [Bool.and_eq_true, decide_eq_true_eq, not_and]
        intro _
        omega
      · simp only [Bool.and_eq_true, decide_eq_true_eq, not_and]
        rintro ⟨-, hc⟩
        exact absurd hc hconn
  rw [dif_pos hfilter]
  rfl

def exRoomBurnNoTarget : RoomState :=
  { exRoomClassic with players := [{ exAnn with powerUps := { freeze := 0, burn := 1 } }, exBob] }

theorem usePowerUp_burn_no_target_witness :
    usePowerUp exRoomBurnNoTarget "p1" .burn 0 =
      ({ exRoomBurnNoTarget with players := updatePlayer exRoomBurnNoTarget.players "p1" burnDecPlayer },
       { success := false }) :=
  usePowerUp_burn_no_target exRoomBurnNoTarget "p1" 0
    { exAnn with powerUps := { freeze := 0, burn := 1 } } (by decide) (by decide) (by decide)

/-! ## C6: winner and draw detection at game end -/

theorem getGameEndState_leaderboard (room : RoomState) :
    (getGameEndState room).finalLeaderboard =
      List.insertionSort scoreDescOrder (room.players.map Player.toEntry) := by
  unfold getGameEndState
  cases List.insertionSort scoreDescOrder (room.players.map Player.toEntry) <;> rfl

theorem getGameEndState_cons (room : RoomState) (top : LeaderboardEntry)
    (rest : List LeaderboardEntry)
    (h : List.insertionSort scoreDescOrder (room.players.map Player.toEntry) = top :: rest) :
    getGameEndState room =
      { finalLeaderboard := top :: rest
        winner := if (((top :: rest).filter fun e =>
            decide (e.totalPoints = top.totalPoints)).length = 1) then some top else none
        isDraw := decide (1 < (top :: rest).length) &&
          decide (1 < ((top :: rest).filter fun e =>
            decide (e.totalPoints = top.totalPoints)).length) } := by
  unfold getGameEndState
  rw [h]

/-- **C6.** At game end the leaderboard is exactly the players (as
leaderboard entries) sorted by cumulative score descending: a permutation of
`room.players.map Player.toEntry` that is `Sorted` for the descending-score
order.  With `M` the top score (an upper bound attained by some player): when
exactly one player holds score `M` the winner is a non-null entry
identifying that player, and when two or more players hold score `M` the
winner is null and `isDraw` is true. -/
theorem getGameEndState_spec (room : RoomState) (M : Int)
    (hub : ∀ p ∈ room.players, p.score ≤ M)
    (hmem : ∃ p ∈ room.players, p.score = M) :
    (getGameEndState room).finalLeaderboard.Perm (room.players.map Player.toEntry) ∧
    List.Sorted scoreDescOrder (getGameEndState room).finalLeaderboard ∧
    ((room.players.filter fun p => decide (p.score = M)).length = 1 →
      ∃ w, (getGameEndState room).winner = some w ∧ w.totalPoints = M ∧
        ∃ p ∈ room.players, p.id = w.playerId ∧ p.name = w.playerName ∧ p.score = M) ∧
    (2 ≤ (room.players.filter fun p => decide (p.score = M)).length →
      (getGameEndState room).winner = none ∧ (getGameEndState room).isDraw = true) := by
  have hlead := getGameEndState_leaderboard room
  refine ⟨by rw [hlead]; exact List.perm_insertionSort _ _,
          by rw [hlead]; exact List.sorted_insertionSort _ _, ?_⟩
  obtain ⟨pm, hpm, hpmM⟩ := hmem
  have hperm := List.perm_insertionSort scoreDescOrder (room.players.map Player.toEntry)
  have hsorted := List.sorted_insertionSort scoreDescOrder (room.players.map Player.toEntry)
  cases hlbc : List.insertionSort scoreDescOrder (room.players.map Player.toEntry) with
  | nil =>
      rw [hlbc] at hperm
      have : Player.toEntry pm ∈ ([] : List LeaderboardEntry) :=
        hperm.mem_iff.mpr (List.mem_map_of_mem _ hpm)
      simp at this
  | cons top rest =>
      rw [hlbc] at hperm hsorted
      have hgs := getGameEndState_cons room top rest hlbc
      have htopmem : top ∈ room.players.map Player.toEntry :=
        hperm.subset (List.mem_cons_self _ _)
      have htople : ∀ e ∈ top :: rest, e.totalPoints ≤ top.totalPoints := by
        intro e he
        rcases List.mem_cons.mp he with rfl | he
        · exact le_refl _
        · exact (List.sorted_cons.mp hsorted).1 e he
      have htopM : top.totalPoints = M := by
        obtain ⟨p0, hp0, hp0e⟩ := List.mem_map.mp htopmem
        have h1 : top.totalPoints ≤ M := by
          rw [← hp0e]; exact hub p0 hp0
        have h2 : M ≤ top.totalPoints := by
          have hmem_lb : Player.toEntry pm ∈ top :: rest :=
            hperm.mem_iff.mpr (List.mem_map_of_mem _ hpm)
          have := htople _ hmem_lb
          simpa [Player.toEntry, hpmM] using this
        exact le_antisymm h1 h2
      have hcount : ((top :: rest).filter fun e => decide (e.totalPoints = M)).length =
          (room.players.filter fun p => decide (p.score = M)).length := by
        rw [(hperm.filter fun e => decide (e.totalPoints = M)).length_eq]
        rw [List.filter_map, List.length_map]
        rfl
      have hfiltereq : ((top :: rest).filter fun e =>
          decide (e.totalPoints = top.totalPoints)) =
          ((top :: rest).filter fun e => decide (e.totalPoints = M)) := by
        rw [htopM]
      constructor
      · intro h1
        rw [hgs]
        simp only [hfiltereq, hcount, h1, if_pos]
        refine ⟨top, rfl, htopM, ?_⟩
        obtain ⟨p0, hp0, hp0e⟩ := List.mem_map.mp htopmem
        refine ⟨p0, hp0, ?_, ?_, ?_⟩
        · rw [← hp0e]; rfl
        · rw [← hp0e]; rfl
        · have : (Player.toEntry p0).totalPoints = M := by rw [hp0e, htopM]
          exact this
      · intro h2
        have hlen2 : 2 ≤ ((top :: rest).filter fun e =>
            decide (e.totalPoints = M)).length := by omega
        rw [hgs]
        constructor
        · simp only [hfiltereq]
          rw [if_neg (by omega)]
        · have hle := List.length_filter_le
            (fun e => decide (e.totalPoints = M)) (top :: rest)
          simp only [hfiltereq, Bool.and_eq_true, decide_eq_true_eq]
          constructor
          · simp only [List.length_cons] at hle ⊢
            omega
          · omega

def exRoomTied : RoomState :=
  { exRoomClassic with players := [{ exAnn with score := 7 }, { exBob with score := 7 }] }

theorem getGameEndState_spec_witness :
    (getGameEndState exRoomTied).winner = none ∧ (getGameEndState exRoomTied).isDraw = true :=
  (getGameEndState_spec exRoomTied 7 (by decide)
    ⟨{ exAnn with score := 7 }, by decide, rfl⟩).2.2.2 (by decide)

/-! ## C8: a classic word is claimed once per round -/

theorem classicSubmit_accept (room : RoomState) (rs : RoundState) (dict : List Char → Bool)
    (playerId : String) (nw : List Char) (room' : RoomState) (rs' : RoundState)
    (res : SubmitResult)
    (h : classicSubmit room rs dict playerId nw = (room', rs', res))
    (hok : res.ok = true) :
    room'.settings = room.settings ∧ room'.phase = room.phase ∧
    rs'.sourceWord = rs.sourceWord ∧ rs'.endsAt = rs.endsAt ∧ rs'.gameMode = rs.gameMode ∧
    rs'.usedWordsGlobal = rs.usedWordsGlobal ++ [nw] ∧
    ¬ nw.length < room.settings.minLen.getD 3 ∧
    dict nw = true ∧ canBuildFromLetters nw rs.sourceWord = true := by
  unfold classicSubmit at h
  by_cases h1 : nw.length < room.settings.minLen.getD 3
  · rw [if_pos h1] at h; cases h; cases hok
  · rw [if_neg h1] at h
    by_cases h2 : dict nw = true
    · rw [if_neg (by simp [h2])] at h
      by_cases h3 : canBuildFromLetters nw rs.sourceWord = true
      · rw [if_neg (by simp [h3])] at h
        by_cases h4 : nw ∈ rs.usedWordsGlobal
        · rw [if_pos h4] at h; cases h; cases hok
        · rw [if_neg h4] at h
          cases hfind : findPlayer room.players playerId with
          | none =>
              simp only [hfind] at h
              cases h
              exact ⟨rfl, rfl, rfl, rfl, rfl, rfl, h1, h2, h3⟩
          | some player =>
              simp only [hfind] at h
              cases h
              exact ⟨rfl, rfl, rfl, rfl, rfl, rfl, h1, h2, h3⟩
      · simp only [Bool.not_eq_true] at h3
        rw [if_pos (by simp [h3])] at h
        cases h; cases hok
    · simp only [Bool.not_eq_true] at h2
      rw [if_pos (by simp [h2])] at h
      cases h; cases hok

theorem classicSubmit_used (room : RoomState) (rs : RoundState) (dict : List Char → Bool)
    (playerId : String) (nw : List Char)
    (hlen : ¬ nw.length < room.settings.minLen.getD 3)
    (hdict : dict nw = true)
    (hbuild : canBuildFromLetters nw rs.sourceWord = true)
    (hused : nw ∈ rs.usedWordsGlobal) :
    (classicSubmit room rs dict playerId nw).2.2 =
      { ok := false, reason := some "already_used" } := by
  unfold classicSubmit
  rw [if_neg hlen, if_neg (by simp [hdict]), if_neg (by simp [hbuild]), if_pos hused]

theorem submitWordAsync_classic_eq (room : RoomState) (rs : RoundState)
    (dict : List Char → Bool) (now : Nat) (playerId : String) (word : List Char)
    (hphase : room.phase = GamePhase.round) (ht : now < rs.endsAt)
    (hmode : rs.gameMode = GameMode.classic) :
    submitWordAsync room rs dict now playerId word =
      classicSubmit room rs dict playerId (normalizeWord word) := by
  unfold submitWordAsync
  rw [if_neg (by simp [hphase]), if_neg (by omega), hmode]

/-- **C8.** In classic mode, once a normalized word has been accepted for any
player in a round (it is added to the round's global used-word set), every
subsequent in-time submission of the same normalized word, by any player, is
rejected with reason `already_used`. -/
theorem classic_word_already_used
    (room : RoomState) (rs : RoundState) (dict : List Char → Bool)
    (now now2 : Nat) (playerId playerId2 : String) (word word2 : List Char)
    (room' : RoomState) (rs' : RoundState) (res : SubmitResult)
    (hmode : rs.gameMode = .classic)
    (h : submitWordAsync room rs dict now playerId word = (room', rs', res))
    (hok : res.ok = true)
    (ht2 : now2 < rs'.endsAt)
    (hw2 : normalizeWord word2 = normalizeWord word) :
    (submitWordAsync room' rs' dict now2 playerId2 word2).2.2 =
      { ok := false, reason := some "already_used" } := by
  by_cases hphase : room.phase = GamePhase.round
  · by_cases ht : now < rs.endsAt
    · rw [submitWordAsync_classic_eq room rs dict now playerId word hphase ht hmode] at h
      obtain ⟨hset, hph, hsw, hend, hgm, hused, hlen, hdict, hbuild⟩ :=
        classicSubmit_accept room rs dict playerId (normalizeWord word) room' rs' res h hok
      have hphase' : room'.phase = GamePhase.round := by rw [hph, hphase]
      have hmode' : rs'.gameMode = GameMode.classic := by rw [hgm, hmode]
      rw [submitWordAsync_classic_eq room' rs' dict now2 playerId2 word2 hphase' ht2 hmode']
      rw [hw2]
      apply classicSubmit_used
      · rw [hset]; exact hlen
      · exact hdict
      · rw [hsw]; exact hbuild
      · rw [hused]; exact List.mem_append_right _ (List.mem_singleton_self _)
    · rw [submitWordAsync_rejects_round_ended room rs dict now playerId word
        (Or.inl (by omega))] at h
      cases h; cases hok
  · rw [submitWordAsync_rejects_round_ended room rs dict now playerId word
      (Or.inr hphase)] at h
    cases h; cases hok

def exRoundClassic : RoundState := createRound exRoomClassic 0 0 exGen

def exDictClassic : List Char → Bool := fun w => w = "let".toList

theorem classic_word_already_used_witness :
    (submitWordAsync
        (submitWordAsync exRoomClassic exRoundClassic exDictClassic 5000 "p2" "let".toList).1
        (submitWordAsync exRoomClassic exRoundClassic exDictClassic 5000 "p2" "let".toList).2.1
        exDictClassic 6000 "p1" "LET".toList).2.2 =
      { ok := false, reason := some "already_used" } :=
  classic_word_already_used exRoomClassic exRoundClassic exDictClassic 5000 6000 "p2" "p1"
    "let".toList "LET".toList
    (submitWordAsync exRoomClassic exRoundClassic exDictClassic 5000 "p2" "let".toList).1
    (submitWordAsync exRoomClassic exRoundClassic exDictClassic 5000 "p2" "let".toList).2.1
    (submitWordAsync exRoomClassic exRoundClassic exDictClassic 5000 "p2" "let".toList).2.2
    (by decide) rfl (by decide) (by decide) (by decide)
